import Mathlib

/-!
# Verification of the logrus Graylog HTTP hook

Shallow embedding of `graylog-hook.go` (package `grayhook`): the message
encoder (`GraylogMessage` + `json.Marshal` with its `omitempty` tags), the
`Fire` enqueue path, the background worker's retry loop (`sendEntry`), the
pending-work counter backing `Flush` (`sync.WaitGroup`), and `Levels`.

Concurrency is modelled by explicit state passing: the buffered channel
`hook.buf` becomes a FIFO list, the WaitGroup counter becomes a natural
number, and the worker's HTTP attempts are driven by an oracle assigning an
outcome (request-construction error, transport error, or a completed HTTP
response with some status code) to each attempt index.
-/

namespace GrayHook

/-- JSON values, the codomain of `encoding/json` marshalling. Objects are
association lists of key/value pairs in emission order. -/
inductive JValue where
  | null
  | bool (b : Bool)
  | num (n : Int)
  | str (s : String)
  | obj (fields : List (String × JValue))

/-- Go `interface{}` values as they appear in `map[string]interface{}`
field maps (`hook.extra`, `entry.Data`): JSON-serializable scalars, or an
unsupported kind (func, chan, complex, ...) on which `json.Marshal` fails
with `UnsupportedTypeError`. -/
inductive GoValue where
  | null
  | bool (b : Bool)
  | num (n : Int)
  | str (s : String)
  | unsupported (kind : String)
deriving DecidableEq

/-- `json.Marshal` of a single `interface{}` value: scalars serialize to the
corresponding JSON value, unsupported kinds make marshalling fail. -/
def marshalValue : GoValue → Option JValue
  | .null => some .null
  | .bool b => some (.bool b)
  | .num n => some (.num n)
  | .str s => some (.str s)
  | .unsupported _ => none

/-- `json.Marshal` of a `map[string]interface{}`: marshal every value,
failing if any value is unserializable. The association list is the
canonical representation of the Go map (Go maps are unordered; `json.Marshal`
emits their entries in sorted key order, and we take the list to be the
map's entries in that canonical order). -/
def marshalFields : List (String × GoValue) → Option (List (String × JValue))
  | [] => some []
  | (k, v) :: rest =>
    match marshalValue v, marshalFields rest with
    | some jv, some jrest => some ((k, jv) :: jrest)
    | _, _ => none

/-- Lookup of a key in a JSON object's field list (first match). -/
def lookupField : List (String × JValue) → String → Option JValue
  | [], _ => none
  | (k, v) :: rest, key => if key = k then some v else lookupField rest key

/-- Lookup of a key in a Go field map. -/
def lookupGo : List (String × GoValue) → String → Option GoValue
  | [], _ => none
  | (k, v) :: rest, key => if key = k then some v else lookupGo rest key

/-- Lookup of a key in a JSON value; `none` unless it is an object holding
the key. Models field access when decoding the wire payload. -/
def jLookup (j : JValue) (key : String) : Option JValue :=
  match j with
  | .obj fields => lookupField fields key
  | _ => none

/-- The `GraylogMessage` struct (graylog-hook.go lines 23-35). `time.Time`
is modelled as a `Nat` instant; `int32`/`int` as `Int`; the two
`map[string]interface{}` fields as association lists. -/
structure GraylogMessage where
  Version : String
  Host : String
  Short : String
  Full : String
  TimeUnix : Nat
  Level : Int
  Facility : String
  File : String
  Line : Int
  Extra : List (String × GoValue)
  LogFields : List (String × GoValue)

/-- One field of the marshalled object under an `omitempty` tag: emitted
unless the `omit` flag (the field's Go emptiness test) is true. -/
def optField (key : String) (omitted : Bool) (v : JValue) : List (String × JValue) :=
  if omitted then [] else [(key, v)]

/-- `json.Marshal` of a `GraylogMessage`. Every field carries `omitempty`;
for strings that means omitted when `""`, for numbers when `0`, for maps
when empty. `TimeUnix` has kind struct (`time.Time`), and `encoding/json`'s
emptiness test never holds for a struct, so the `timestamp` field is always
emitted regardless of its tag — hence its omit flag is `false`. Fields are
emitted in struct declaration order. Marshalling fails iff some value of
`Extra` or `LogFields` is unserializable. -/
def marshalMessage (m : GraylogMessage) : Option JValue :=
  match marshalFields m.Extra, marshalFields m.LogFields with
  | some extraJ, some lfJ =>
    some (.obj (
      optField "version" (m.Version = "") (.str m.Version) ++
      optField "host" (m.Host = "") (.str m.Host) ++
      optField "short_message" (m.Short = "") (.str m.Short) ++
      optField "full_message" (m.Full = "") (.str m.Full) ++
      optField "timestamp" false (.num m.TimeUnix) ++
      optField "level" (m.Level = 0) (.num m.Level) ++
      optField "facility" (m.Facility = "") (.str m.Facility) ++
      optField "file" (m.File = "") (.str m.File) ++
      optField "line" (m.Line = 0) (.num m.Line) ++
      optField "extra" m.Extra.isEmpty (.obj extraJ) ++
      optField "log_fields" m.LogFields.isEmpty (.obj lfJ)))
  | _, _ => none

/-- The field names that can appear in a wire payload. -/
def wireKeys : List String :=
  ["version", "host", "short_message", "full_message", "timestamp",
   "level", "facility", "file", "line", "extra", "log_fields"]

/-! ## Hook configuration and construction -/

/-- logrus severity levels by numeric value: Panic=0, Fatal=1, Error=2,
Warn=3, Info=4, Debug=5, Trace=6 (smaller = more severe). -/
def PanicLevel : Nat := 0
def ErrorLevel : Nat := 2
def DebugLevel : Nat := 5
def TraceLevel : Nat := 6

/-- `logrus.AllLevels`: every severity from Panic (0) to Trace (6). -/
def AllLevels : List Nat := [0, 1, 2, 3, 4, 5, 6]

/-- `setLevel` (graylog-hook.go lines 142-144): the `int32(logrusLevel)`
conversion from the `uint32`-valued logrus level, with two's-complement
wraparound made explicit. -/
def setLevel (logrusLevel : Nat) : Int :=
  if logrusLevel % 2 ^ 32 < 2 ^ 31 then (logrusLevel % 2 ^ 32 : Int)
  else (logrusLevel % 2 ^ 32 : Int) - 2 ^ 32

/-- The immutable part of a `GraylogHook` (graylog-hook.go lines 38-48):
collector address, resolved hostname, facility, extra fields, retry count,
and minimum severity threshold. The channel and WaitGroup live in
`HookState`; the HTTP client is modelled by the per-attempt oracle. -/
structure GraylogHook where
  graylogAddress : String
  hostname : String
  facility : String
  extra : List (String × GoValue)
  retries : Nat
  Level : Nat
deriving DecidableEq

/-- Go `path.Base`: last element of the path after stripping trailing
slashes; `"."` for the empty path, `"/"` for an all-slash path. Used to
derive the facility from `os.Args[0]`. -/
def pathBase (s : String) : String :=
  if s.toList = [] then "."
  else
    let stripped := ((s.toList.reverse.dropWhile fun c => c = '/')).reverse
    if stripped = [] then "/"
    else String.mk ((stripped.reverse.takeWhile fun c => c ≠ '/')).reverse

/-- `NewGraylogHook` (graylog-hook.go lines 51-80). `os.Hostname` may fail,
which aborts construction; the facility is `path.Base(os.Args[0])`; the
minimum level is set to `logrus.DebugLevel`. (The default insecure HTTP
client and the spawning of the background worker are side effects outside
this pure configuration record.) -/
def NewGraylogHook (graylogAddress : String) (retries : Nat)
    (extra : List (String × GoValue)) (hostnameResult : Except String String)
    (arg0 : String) : Except String GraylogHook :=
  match hostnameResult with
  | .error e => .error e
  | .ok host =>
    .ok { graylogAddress := graylogAddress
          hostname := host
          facility := pathBase arg0
          extra := extra
          retries := retries
          Level := DebugLevel }

/-- `Levels` (graylog-hook.go lines 147-155): iterate over
`logrus.AllLevels`, appending every level `≤ hook.Level`. -/
def Levels (hook : GraylogHook) : List Nat :=
  AllLevels.foldl (fun levels level =>
    if level ≤ hook.Level then levels ++ [level] else levels) []

/-! ## The worker's retry loop -/

/-- Outcome of one delivery attempt, as decided by the environment:
`http.NewRequest` fails, `httpClient.Do` fails with a transport error, or
the HTTP exchange completes with some status code. -/
inductive AttemptResult where
  | constructError
  | transportError
  | response (status : Nat)
deriving DecidableEq

/-- An attempt result that does not complete the HTTP exchange (request
construction or transport error). -/
def AttemptResult.isFailure : AttemptResult → Bool
  | .constructError => true
  | .transportError => true
  | .response _ => false

/-- Observable events of one `sendEntry` run: a delivery attempt with its
outcome, a `time.Sleep(10 * time.Second)` backoff, and the deferred
`wg.Done()` decrement of the pending-work counter. -/
inductive SendEvent where
  | attempt (r : AttemptResult)
  | sleep10
  | wgDone
deriving DecidableEq

/-- The retry loop body of `sendEntry` (graylog-hook.go lines 85-99):
`for i := 0; i < retries; i++` — on a construction or transport error,
sleep 10 seconds and continue; on a completed exchange, `break`
immediately. `i` is the current attempt index, `k` the remaining
iterations. -/
def sendLoop (oracle : Nat → AttemptResult) : Nat → Nat → List SendEvent
  | _, 0 => []
  | i, k + 1 =>
    match oracle i with
    | .constructError => .attempt .constructError :: .sleep10 :: sendLoop oracle (i + 1) k
    | .transportError => .attempt .transportError :: .sleep10 :: sendLoop oracle (i + 1) k
    | .response s => [.attempt (.response s)]

/-- `sendEntry` (graylog-hook.go lines 82-100): run the retry loop, then the
deferred `hook.wg.Done()` fires exactly once at function exit. -/
def sendEntry (retries : Nat) (oracle : Nat → AttemptResult) : List SendEvent :=
  sendLoop oracle 0 retries ++ [.wgDone]

/-- Number of delivery attempts in an event trace. -/
def attemptCount : List SendEvent → Nat
  | [] => 0
  | .attempt _ :: rest => attemptCount rest + 1
  | .sleep10 :: rest => attemptCount rest
  | .wgDone :: rest => attemptCount rest

/-- Number of `wg.Done()` decrements in an event trace. -/
def doneCount : List SendEvent → Nat
  | [] => 0
  | .wgDone :: rest => doneCount rest + 1
  | .attempt _ :: rest => doneCount rest
  | .sleep10 :: rest => doneCount rest

/-- The status code of the first completed HTTP exchange in a trace, or
`none` if the payload was discarded without a completed exchange. -/
def delivered : List SendEvent → Option Nat
  | [] => none
  | .attempt (.response s) :: _ => some s
  | .attempt .constructError :: rest => delivered rest
  | .attempt .transportError :: rest => delivered rest
  | .sleep10 :: rest => delivered rest
  | .wgDone :: rest => delivered rest

/-! ## Queue, pending counter, Fire and Flush -/

/-- The mutable state shared between producers and the worker: the buffered
channel `hook.buf` as a FIFO list of marshalled payloads, and the
`sync.WaitGroup` counter. -/
structure HookState where
  queue : List JValue
  pending : Nat

/-- State of a freshly constructed hook: empty channel, zero counter. -/
def initialState : HookState := { queue := [], pending := 0 }

/-- A log record as handed to `Fire` by logrus: `entry.Message`,
`entry.Level`, `entry.Data`. -/
structure LogEntry where
  message : String
  level : Nat
  data : List (String × GoValue)

/-- The `GraylogMessage` literal built inside `Fire` (graylog-hook.go lines
113-123): fixed version `"1.0"`, the hook's hostname/facility/extra, the
entry's message, level and data, `time.Now()` as the timestamp. The `Full`
field is left at its zero value (the assignment is commented out in the
source), and `File`/`Line` are never set. -/
def buildMessage (hook : GraylogHook) (entry : LogEntry) (now : Nat) : GraylogMessage :=
  { Version := "1.0"
    Host := hook.hostname
    Short := entry.message
    Full := ""
    TimeUnix := now
    Level := setLevel entry.level
    Facility := hook.facility
    File := ""
    Line := 0
    Extra := hook.extra
    LogFields := entry.data }

/-- `Fire` (graylog-hook.go lines 111-134): build the message, marshal it;
on a marshalling error return the error with the state untouched; otherwise
`wg.Add(1)` and send the payload on the channel (`Add` happens before the
channel send). Returns the error result paired with the new state. -/
def Fire (hook : GraylogHook) (entry : LogEntry) (now : Nat) (s : HookState) :
    Option String × HookState :=
  match marshalMessage (buildMessage hook entry now) with
  | none => (some "json: unsupported type", s)
  | some payload => (none, { queue := s.queue ++ [payload], pending := s.pending + 1 })

/-- One iteration of the worker loop `fire` (graylog-hook.go lines 103-108):
receive the oldest payload from the channel and run `sendEntry` on it,
whose deferred `wg.Done()` calls decrement the counter. With an empty
channel the worker blocks, leaving the state unchanged. -/
def workerStep (hook : GraylogHook) (oracle : Nat → AttemptResult) (s : HookState) :
    HookState :=
  match s.queue with
  | [] => s
  | _ :: rest => { queue := rest, pending := s.pending - doneCount (sendEntry hook.retries oracle) }

/-- `Flush` (graylog-hook.go lines 137-139): `wg.Wait()` returns exactly
when the pending-work counter is zero. -/
def flushReturns (s : HookState) : Prop := s.pending = 0

/-- A sequence of `Fire` calls, threading the state (errors discarded, as a
failed `Fire` leaves the state unchanged). -/
def runFires (hook : GraylogHook) (entries : List LogEntry) (now : Nat)
    (s : HookState) : HookState :=
  entries.foldl (fun s e => (Fire hook e now s).2) s

/-- `steps` iterations of the worker loop, attempt outcomes for iteration
`k` drawn from `oracles k`. -/
def runWorker (hook : GraylogHook) (oracles : Nat → Nat → AttemptResult) :
    Nat → HookState → HookState
  | 0, s => s
  | k + 1, s => runWorker hook oracles k (workerStep hook (oracles k) s)

/-! ## Concrete fixtures used by the witness theorems -/

/-- A hook with no extra fields, as produced by a successful construction. -/
def hookW : GraylogHook :=
  { graylogAddress := "u", hostname := "h", facility := "f", extra := [],
    retries := 1, Level := 5 }

/-- A log record whose field map holds an unserializable (func) value. -/
def entryBad : LogEntry :=
  { message := "hi", level := 4, data := [("cb", GoValue.unsupported "func")] }

/-- The all-zero `GraylogMessage`: every field at its Go zero value. -/
def msgZero : GraylogMessage :=
  { Version := "", Host := "", Short := "", Full := "", TimeUnix := 0,
    Level := 0, Facility := "", File := "", Line := 0, Extra := [],
    LogFields := [] }

/-- A message with a mix of empty and non-empty fields. -/
def msgMix : GraylogMessage :=
  { Version := "1.0", Host := "h", Short := "msg", Full := "", TimeUnix := 9,
    Level := 0, Facility := "fac", File := "", Line := 0, Extra := [],
    LogFields := [("a", GoValue.str "b")] }

/-- The wire object `msgMix` marshals to. -/
def jMix : JValue :=
  .obj [("version", .str "1.0"), ("host", .str "h"),
    ("short_message", .str "msg"), ("timestamp", .num 9),
    ("facility", .str "fac"), ("log_fields", .obj [("a", .str "b")])]

/-- A plain log record with no per-event fields. -/
def entryA : LogEntry := { message := "a", level := 4, data := [] }

/-- Another plain log record with no per-event fields. -/
def entryB : LogEntry := { message := "b", level := 4, data := [] }

/-- The hook `NewGraylogHook "http://collector" 3 [] (.ok "myhost")
"/usr/bin/app"` constructs. -/
def hookFull : GraylogHook :=
  { graylogAddress := "http://collector", hostname := "myhost",
    facility := "app", extra := [], retries := 3, Level := DebugLevel }

/-- The hook `NewGraylogHook "u" 1 [] (.ok "h") "app"` constructs. -/
def hookFresh : GraylogHook :=
  { graylogAddress := "u", hostname := "h", facility := "app", extra := [],
    retries := 1, Level := DebugLevel }

/-! ## Trace lemmas for the retry loop -/

theorem attemptCount_append (l1 l2 : List SendEvent) :
    attemptCount (l1 ++ l2) = attemptCount l1 + attemptCount l2 := by
  induction l1 with
  | nil => simp [attemptCount]
  | cons e rest ih => cases e <;> simp [attemptCount, ih] <;> omega

theorem doneCount_append (l1 l2 : List SendEvent) :
    doneCount (l1 ++ l2) = doneCount l1 + doneCount l2 := by
  induction l1 with
  | nil => simp [doneCount]
  | cons e rest ih => cases e <;> simp [doneCount, ih] <;> omega

theorem delivered_append_none (l1 l2 : List SendEvent) (h : delivered l1 = none) :
    delivered (l1 ++ l2) = delivered l2 := by
  induction l1 with
  | nil => simp
  | cons e rest ih =>
    cases e with
    | attempt r =>
      cases r with
      | constructError => simp only [List.cons_append, delivered] at h ⊢; exact ih h
      | transportError => simp only [List.cons_append, delivered] at h ⊢; exact ih h
      | response s => simp [delivered] at h
    | sleep10 => simp only [List.cons_append, delivered] at h ⊢; exact ih h
    | wgDone => simp only [List.cons_append, delivered] at h ⊢; exact ih h

theorem delivered_append_some (l1 l2 : List SendEvent) (s : Nat)
    (h : delivered l1 = some s) : delivered (l1 ++ l2) = some s := by
  induction l1 with
  | nil => simp [delivered] at h
  | cons e rest ih =>
    cases e with
    | attempt r =>
      cases r with
      | constructError => simp only [List.cons_append, delivered] at h ⊢; exact ih h
      | transportError => simp only [List.cons_append, delivered] at h ⊢; exact ih h
      | response s' => simp only [List.cons_append, delivered] at h ⊢; exact h
    | sleep10 => simp only [List.cons_append, delivered] at h ⊢; exact ih h
    | wgDone => simp only [List.cons_append, delivered] at h ⊢; exact ih h

theorem doneCount_sendLoop (oracle : Nat → AttemptResult) :
    ∀ (k i : Nat), doneCount (sendLoop oracle i k) = 0 := by
  intro k
  induction k with
  | zero => intro i; rfl
  | succ n ih =>
    intro i
    cases hoi : oracle i <;> simp [sendLoop, hoi, doneCount, ih]

/-- The deferred `wg.Done()` fires exactly once per `sendEntry` run,
whatever the retry count and the attempt outcomes. -/
theorem doneCount_sendEntry (retries : Nat) (oracle : Nat → AttemptResult) :
    doneCount (sendEntry retries oracle) = 1 := by
  rw [sendEntry, doneCount_append, doneCount_sendLoop]
  rfl

/-- When every attempt in the window fails, the loop runs all iterations,
producing attempt `j` followed by a 10-second sleep, for each `j` from `i`
to `i + k - 1`. -/
theorem sendLoop_allFail (oracle : Nat → AttemptResult) :
    ∀ (k i : Nat), (∀ j, i ≤ j → j < i + k → (oracle j).isFailure = true) →
      sendLoop oracle i k =
        ((List.range' i k).map fun j =>
          [SendEvent.attempt (oracle j), SendEvent.sleep10]).flatten := by
  intro k
  induction k with
  | zero => intro i _; simp [sendLoop]
  | succ n ih =>
    intro i h
    have h0 : (oracle i).isFailure = true := h i le_rfl (by omega)
    have htail : ∀ j, i + 1 ≤ j → j < i + 1 + n → (oracle j).isFailure = true := by
      intro j h1 h2; exact h j (by omega) (by omega)
    cases hoi : oracle i with
    | response s => rw [hoi] at h0; simp [AttemptResult.isFailure] at h0
    | constructError =>
      simp only [sendLoop, hoi, List.range'_succ, List.map_cons, List.flatten_cons,
        List.cons_append, List.nil_append]
      rw [ih (i + 1) htail]
    | transportError =>
      simp only [sendLoop, hoi, List.range'_succ, List.map_cons, List.flatten_cons,
        List.cons_append, List.nil_append]
      rw [ih (i + 1) htail]

theorem attemptCount_failBlocks (oracle : Nat → AttemptResult) (L : List Nat) :
    attemptCount ((L.map fun j =>
      [SendEvent.attempt (oracle j), SendEvent.sleep10]).flatten) = L.length := by
  induction L with
  | nil => rfl
  | cons a L ih => simp [attemptCount, ih]

theorem doneCount_failBlocks (oracle : Nat → AttemptResult) (L : List Nat) :
    doneCount ((L.map fun j =>
      [SendEvent.attempt (oracle j), SendEvent.sleep10]).flatten) = 0 := by
  induction L with
  | nil => rfl
  | cons a L ih => simp [doneCount, ih]

theorem delivered_failBlocks (oracle : Nat → AttemptResult) (L : List Nat)
    (h : ∀ j ∈ L, (oracle j).isFailure = true) :
    delivered ((L.map fun j =>
      [SendEvent.attempt (oracle j), SendEvent.sleep10]).flatten) = none := by
  induction L with
  | nil => rfl
  | cons a L ih =>
    have ha : (oracle a).isFailure = true := h a (List.mem_cons_self a L)
    have hL : ∀ j ∈ L, (oracle j).isFailure = true := fun j hj => h j (List.mem_cons_of_mem a hj)
    cases hoa : oracle a with
    | response s => rw [hoa] at ha; simp [AttemptResult.isFailure] at ha
    | constructError => simp [hoa, delivered, ih hL]
    | transportError => simp [hoa, delivered, ih hL]

/-- If attempts `i, …, j-1` fail and attempt `j < i + k` completes the HTTP
exchange with status `s`, the loop breaks right after attempt `j`. -/
theorem sendLoop_firstSuccess (oracle : Nat → AttemptResult) :
    ∀ (k i j s : Nat), i ≤ j → j < i + k →
      (∀ d, i ≤ d → d < j → (oracle d).isFailure = true) →
      oracle j = .response s →
      sendLoop oracle i k =
        ((List.range' i (j - i)).map fun d =>
          [SendEvent.attempt (oracle d), SendEvent.sleep10]).flatten
          ++ [SendEvent.attempt (.response s)] := by
  intro k
  induction k with
  | zero => intro i j s h1 h2 _ _; omega
  | succ n ih =>
    intro i j s h1 h2 hpre hsucc
    rcases Nat.eq_or_lt_of_le h1 with heq | hlt
    · subst heq
      simp [sendLoop, hsucc]
    · have h0 : (oracle i).isFailure = true := hpre i le_rfl hlt
      have hj : j - i = (j - (i + 1)) + 1 := by omega
      cases hoi : oracle i with
      | response s' => rw [hoi] at h0; simp [AttemptResult.isFailure] at h0
      | constructError =>
        simp only [sendLoop, hoi]
        rw [ih (i + 1) j s (by omega) (by omega)
          (fun d hd1 hd2 => hpre d (by omega) hd2) hsucc]
        rw [hj, List.range'_succ]
        simp only [List.map_cons, List.flatten_cons, List.cons_append, List.nil_append, hoi]
      | transportError =>
        simp only [sendLoop, hoi]
        rw [ih (i + 1) j s (by omega) (by omega)
          (fun d hd1 hd2 => hpre d (by omega) hd2) hsucc]
        rw [hj, List.range'_succ]
        simp only [List.map_cons, List.flatten_cons, List.cons_append, List.nil_append, hoi]

/-! ## Claim theorems: retry loop -/

/-- C1: with maximum retry count `R > 0` and every attempt failing with a
request-construction or transport error, the worker performs exactly `R`
attempts, each separated by (indeed, followed by) the fixed 10-second
backoff sleep, delivers nothing (the payload is discarded), and decrements
the pending-work counter exactly once. -/
theorem C1_exhausted_retries (R : Nat) (oracle : Nat → AttemptResult)
    (hR : 0 < R) (hfail : ∀ i, i < R → (oracle i).isFailure = true) :
    sendEntry R oracle =
      ((List.range' 0 R).map fun i =>
        [SendEvent.attempt (oracle i), SendEvent.sleep10]).flatten
        ++ [SendEvent.wgDone] ∧
    attemptCount (sendEntry R oracle) = R ∧
    delivered (sendEntry R oracle) = none ∧
    doneCount (sendEntry R oracle) = 1 := by
  have hfail' : ∀ j, 0 ≤ j → j < 0 + R → (oracle j).isFailure = true := by
    intro j _ hj; exact hfail j (by omega)
  have htrace : sendEntry R oracle =
      ((List.range' 0 R).map fun i =>
        [SendEvent.attempt (oracle i), SendEvent.sleep10]).flatten
        ++ [SendEvent.wgDone] := by
    rw [sendEntry, sendLoop_allFail oracle R 0 hfail']
  refine ⟨htrace, ?_, ?_, doneCount_sendEntry R oracle⟩
  · rw [htrace, attemptCount_append, attemptCount_failBlocks]
    simp [attemptCount, List.length_range']
  · rw [htrace, delivered_append_none]
    · rfl
    · refine delivered_failBlocks oracle _ ?_
      intro j hj
      rw [List.mem_range'_1] at hj
      exact hfail j (by omega)

/-- C1 witness: R = 2, every attempt a transport error — two attempts, each
followed by the 10-second sleep, no delivery, one counter decrement. -/
theorem C1_exhausted_retries_witness :
    0 < 2 ∧
    (sendEntry 2 (fun _ => .transportError) =
      ((List.range' 0 2).map fun i =>
        [SendEvent.attempt ((fun _ => AttemptResult.transportError) i),
         SendEvent.sleep10]).flatten ++ [SendEvent.wgDone] ∧
     attemptCount (sendEntry 2 fun _ => .transportError) = 2 ∧
     delivered (sendEntry 2 fun _ => .transportError) = none ∧
     doneCount (sendEntry 2 fun _ => .transportError) = 1) :=
  ⟨by decide, C1_exhausted_retries 2 (fun _ => .transportError) (by decide)
    (fun _ _ => rfl)⟩

/-- C3: with retry count `R = 0` the loop body never runs — zero attempts,
no request constructed or sent, the payload silently discarded — and the
deferred `wg.Done()` still decrements the pending-work counter once. -/
theorem C3_zero_retries (oracle : Nat → AttemptResult) :
    sendEntry 0 oracle = [SendEvent.wgDone] ∧
    attemptCount (sendEntry 0 oracle) = 0 ∧
    delivered (sendEntry 0 oracle) = none ∧
    doneCount (sendEntry 0 oracle) = 1 :=
  ⟨rfl, rfl, rfl, rfl⟩

/-- C4: the retry loop breaks immediately after the first attempt whose
request construction and HTTP send both complete without a transport-level
error — `j + 1` attempts when the first `j` fail — whatever the response
status code `s` (non-2xx included), and the counter is decremented once. -/
theorem C4_stop_on_completed_exchange (R j s : Nat) (oracle : Nat → AttemptResult)
    (hjR : j < R) (hpre : ∀ d, d < j → (oracle d).isFailure = true)
    (hsucc : oracle j = .response s) :
    attemptCount (sendEntry R oracle) = j + 1 ∧
    delivered (sendEntry R oracle) = some s ∧
    doneCount (sendEntry R oracle) = 1 := by
  have htrace := sendLoop_firstSuccess oracle R 0 j s (Nat.zero_le j) (by omega)
    (fun d _ hd => hpre d hd) hsucc
  rw [Nat.sub_zero] at htrace
  refine ⟨?_, ?_, doneCount_sendEntry R oracle⟩
  · rw [sendEntry, attemptCount_append, htrace, attemptCount_append,
      attemptCount_failBlocks]
    simp [attemptCount, List.length_range']
  · have hblocks : delivered (((List.range' 0 j).map fun d =>
        [SendEvent.attempt (oracle d), SendEvent.sleep10]).flatten) = none := by
      refine delivered_failBlocks oracle _ ?_
      intro d hd
      rw [List.mem_range'_1] at hd
      exact hpre d (by omega)
    have hloop : delivered (sendLoop oracle 0 R) = some s := by
      rw [htrace, delivered_append_none _ _ hblocks]
      rfl
    rw [sendEntry]
    exact delivered_append_some _ _ s hloop

/-- C4 witness: first attempt completes with status 500 (non-2xx): exactly
one attempt out of an allowed 3, delivery recorded with status 500. -/
theorem C4_stop_on_completed_exchange_witness :
    0 < 3 ∧
    (attemptCount (sendEntry 3 fun _ => .response 500) = 0 + 1 ∧
     delivered (sendEntry 3 fun _ => .response 500) = some 500 ∧
     doneCount (sendEntry 3 fun _ => .response 500) = 1) :=
  ⟨by decide, C4_stop_on_completed_exchange 3 0 500 (fun _ => .response 500)
    (by decide) (fun d hd => absurd hd (by omega)) rfl⟩

/-! ## Claim theorems: Levels -/

theorem levels_foldl (T : Nat) : ∀ (L acc : List Nat),
    L.foldl (fun levels level => if level ≤ T then levels ++ [level] else levels) acc
      = acc ++ L.filter (fun level => decide (level ≤ T)) := by
  intro L
  induction L with
  | nil => intro acc; simp
  | cons a L ih =>
    intro acc
    by_cases h : a ≤ T <;> simp [List.foldl_cons, List.filter_cons, h, ih]

/-- C6: `Levels` returns exactly the severities of `logrus.AllLevels` whose
numeric value is at most the hook's threshold `hook.Level` (smaller value =
more severe). -/
theorem C6_levels_threshold (hook : GraylogHook) (l : Nat) :
    l ∈ Levels hook ↔ l ∈ AllLevels ∧ l ≤ hook.Level := by
  unfold Levels
  rw [levels_foldl]
  simp [List.mem_filter]

/-! ## Lemmas on the marshalled wire payload -/

theorem lookupField_optField_append_ne (key k : String) (b : Bool) (v : JValue)
    (rest : List (String × JValue)) (h : key ≠ k) :
    lookupField (optField k b v ++ rest) key = lookupField rest key := by
  cases b <;> simp [optField, lookupField, h]

theorem lookupField_optField_append_self (k : String) (b : Bool) (v : JValue)
    (rest : List (String × JValue)) :
    lookupField (optField k b v ++ rest) k =
      if b then lookupField rest k else some v := by
  cases b <;> simp [optField, lookupField]

theorem lookupField_optField_ne (key k : String) (b : Bool) (v : JValue)
    (h : key ≠ k) : lookupField (optField k b v) key = none := by
  cases b <;> simp [optField, lookupField, h]

theorem lookupField_optField_self (k : String) (b : Bool) (v : JValue) :
    lookupField (optField k b v) k = if b then none else some v := by
  cases b <;> simp [optField, lookupField]

theorem marshalMessage_obtain (m : GraylogMessage) (j : JValue)
    (h : marshalMessage m = some j) :
    ∃ extraJ lfJ, marshalFields m.Extra = some extraJ ∧
      marshalFields m.LogFields = some lfJ ∧
      j = .obj (
        optField "version" (m.Version = "") (.str m.Version) ++
        optField "host" (m.Host = "") (.str m.Host) ++
        optField "short_message" (m.Short = "") (.str m.Short) ++
        optField "full_message" (m.Full = "") (.str m.Full) ++
        optField "timestamp" false (.num m.TimeUnix) ++
        optField "level" (m.Level = 0) (.num m.Level) ++
        optField "facility" (m.Facility = "") (.str m.Facility) ++
        optField "file" (m.File = "") (.str m.File) ++
        optField "line" (m.Line = 0) (.num m.Line) ++
        optField "extra" m.Extra.isEmpty (.obj extraJ) ++
        optField "log_fields" m.LogFields.isEmpty (.obj lfJ)) := by
  unfold marshalMessage at h
  cases he : marshalFields m.Extra with
  | none => rw [he] at h; simp at h
  | some extraJ =>
    cases hl : marshalFields m.LogFields with
    | none => rw [he, hl] at h; simp at h
    | some lfJ =>
      rw [he, hl] at h
      injection h with h
      exact ⟨extraJ, lfJ, rfl, rfl, h.symm⟩

theorem marshal_lookup_short (m : GraylogMessage) (j : JValue)
    (h : marshalMessage m = some j) :
    jLookup j "short_message" = if m.Short = "" then none else some (.str m.Short) := by
  obtain ⟨extraJ, lfJ, he, hl, rfl⟩ := marshalMessage_obtain m j h
  simp only [jLookup, List.append_assoc]
  rw [lookupField_optField_append_ne "short_message" "version" _ _ _ (by decide),
    lookupField_optField_append_ne "short_message" "host" _ _ _ (by decide),
    lookupField_optField_append_self]
  by_cases hx : m.Short = ""
  · simp only [hx]
    rw [lookupField_optField_append_ne "short_message" "full_message" _ _ _ (by decide),
      lookupField_optField_append_ne "short_message" "timestamp" _ _ _ (by decide),
      lookupField_optField_append_ne "short_message" "level" _ _ _ (by decide),
      lookupField_optField_append_ne "short_message" "facility" _ _ _ (by decide),
      lookupField_optField_append_ne "short_message" "file" _ _ _ (by decide),
      lookupField_optField_append_ne "short_message" "line" _ _ _ (by decide),
      lookupField_optField_append_ne "short_message" "extra" _ _ _ (by decide),
      lookupField_optField_ne "short_message" "log_fields" _ _ (by decide)]
    simp
  · simp [hx]

theorem marshal_lookup_version (m : GraylogMessage) (j : JValue)
    (h : marshalMessage m = some j) :
    jLookup j "version" = if m.Version = "" then none else some (.str m.Version) := by
  obtain ⟨extraJ, lfJ, he, hl, rfl⟩ := marshalMessage_obtain m j h
  simp only [jLookup, List.append_assoc]
  rw [lookupField_optField_append_self]
  by_cases hx : m.Version = ""
  · simp only [hx]
    rw [lookupField_optField_append_ne "version" "host" _ _ _ (by decide),
      lookupField_optField_append_ne "version" "short_message" _ _ _ (by decide),
      lookupField_optField_append_ne "version" "full_message" _ _ _ (by decide),
      lookupField_optField_append_ne "version" "timestamp" _ _ _ (by decide),
      lookupField_optField_append_ne "version" "level" _ _ _ (by decide),
      lookupField_optField_append_ne "version" "facility" _ _ _ (by decide),
      lookupField_optField_append_ne "version" "file" _ _ _ (by decide),
      lookupField_optField_append_ne "version" "line" _ _ _ (by decide),
      lookupField_optField_append_ne "version" "extra" _ _ _ (by decide),
      lookupField_optField_ne "version" "log_fields" _ _ (by decide)]
    simp
  · simp [hx]

theorem marshal_lookup_host (m : GraylogMessage) (j : JValue)
    (h : marshalMessage m = some j) :
    jLookup j "host" = if m.Host = "" then none else some (.str m.Host) := by
  obtain ⟨extraJ, lfJ, he, hl, rfl⟩ := marshalMessage_obtain m j h
  simp only [jLookup, List.append_assoc]
  rw [lookupField_optField_append_ne "host" "version" _ _ _ (by decide),
    lookupField_optField_append_self]
  by_cases hx : m.Host = ""
  · simp only [hx]
    rw [lookupField_optField_append_ne "host" "short_message" _ _ _ (by decide),
      lookupField_optField_append_ne "host" "full_message" _ _ _ (by decide),
      lookupField_optField_append_ne "host" "timestamp" _ _ _ (by decide),
      lookupField_optField_append_ne "host" "level" _ _ _ (by decide),
      lookupField_optField_append_ne "host" "facility" _ _ _ (by decide),
      lookupField_optField_append_ne "host" "file" _ _ _ (by decide),
      lookupField_optField_append_ne "host" "line" _ _ _ (by decide),
      lookupField_optField_append_ne "host" "extra" _ _ _ (by decide),
      lookupField_optField_ne "host" "log_fields" _ _ (by decide)]
    simp
  · simp [hx]

theorem marshal_lookup_full (m : GraylogMessage) (j : JValue)
    (h : marshalMessage m = some j) :
    jLookup j "full_message" = if m.Full = "" then none else some (.str m.Full) := by
  obtain ⟨extraJ, lfJ, he, hl, rfl⟩ := marshalMessage_obtain m j h
  simp only [jLookup, List.append_assoc]
  rw [lookupField_optField_append_ne "full_message" "version" _ _ _ (by decide),
    lookupField_optField_append_ne "full_message" "host" _ _ _ (by decide),
    lookupField_optField_append_ne "full_message" "short_message" _ _ _ (by decide),
    lookupField_optField_append_self]
  by_cases hx : m.Full = ""
  · simp only [hx]
    rw [lookupField_optField_append_ne "full_message" "timestamp" _ _ _ (by decide),
      lookupField_optField_append_ne "full_message" "level" _ _ _ (by decide),
      lookupField_optField_append_ne "full_message" "facility" _ _ _ (by decide),
      lookupField_optField_append_ne "full_message" "file" _ _ _ (by decide),
      lookupField_optField_append_ne "full_message" "line" _ _ _ (by decide),
      lookupField_optField_append_ne "full_message" "extra" _ _ _ (by decide),
      lookupField_optField_ne "full_message" "log_fields" _ _ (by decide)]
    simp
  · simp [hx]

theorem marshal_lookup_timestamp (m : GraylogMessage) (j : JValue)
    (h : marshalMessage m = some j) :
    jLookup j "timestamp" = some (.num m.TimeUnix) := by
  obtain ⟨extraJ, lfJ, he, hl, rfl⟩ := marshalMessage_obtain m j h
  simp only [jLookup, List.append_assoc]
  rw [lookupField_optField_append_ne "timestamp" "version" _ _ _ (by decide),
    lookupField_optField_append_ne "timestamp" "host" _ _ _ (by decide),
    lookupField_optField_append_ne "timestamp" "short_message" _ _ _ (by decide),
    lookupField_optField_append_ne "timestamp" "full_message" _ _ _ (by decide),
    lookupField_optField_append_self]
  simp

theorem marshal_lookup_level (m : GraylogMessage) (j : JValue)
    (h : marshalMessage m = some j) :
    jLookup j "level" = if m.Level = 0 then none else some (.num m.Level) := by
  obtain ⟨extraJ, lfJ, he, hl, rfl⟩ := marshalMessage_obtain m j h
  simp only [jLookup, List.append_assoc]
  rw [lookupField_optField_append_ne "level" "version" _ _ _ (by decide),
    lookupField_optField_append_ne "level" "host" _ _ _ (by decide),
    lookupField_optField_append_ne "level" "short_message" _ _ _ (by decide),
    lookupField_optField_append_ne "level" "full_message" _ _ _ (by decide),
    lookupField_optField_append_ne "level" "timestamp" _ _ _ (by decide),
    lookupField_optField_append_self]
  by_cases hx : m.Level = 0
  · simp only [hx]
    rw [lookupField_optField_append_ne "level" "facility" _ _ _ (by decide),
      lookupField_optField_append_ne "level" "file" _ _ _ (by decide),
      lookupField_optField_append_ne "level" "line" _ _ _ (by decide),
      lookupField_optField_append_ne "level" "extra" _ _ _ (by decide),
      lookupField_optField_ne "level" "log_fields" _ _ (by decide)]
    simp
  · simp [hx]

theorem marshal_lookup_facility (m : GraylogMessage) (j : JValue)
    (h : marshalMessage m = some j) :
    jLookup j "facility" = if m.Facility = "" then none else some (.str m.Facility) := by
  obtain ⟨extraJ, lfJ, he, hl, rfl⟩ := marshalMessage_obtain m j h
  simp only [jLookup, List.append_assoc]
  rw [lookupField_optField_append_ne "facility" "version" _ _ _ (by decide),
    lookupField_optField_append_ne "facility" "host" _ _ _ (by decide),
    lookupField_optField_append_ne "facility" "short_message" _ _ _ (by decide),
    lookupField_optField_append_ne "facility" "full_message" _ _ _ (by decide),
    lookupField_optField_append_ne "facility" "timestamp" _ _ _ (by decide),
    lookupField_optField_append_ne "facility" "level" _ _ _ (by decide),
    lookupField_optField_append_self]
  by_cases hx : m.Facility = ""
  · simp only [hx]
    rw [lookupField_optField_append_ne "facility" "file" _ _ _ (by decide),
      lookupField_optField_append_ne "facility" "line" _ _ _ (by decide),
      lookupField_optField_append_ne "facility" "extra" _ _ _ (by decide),
      lookupField_optField_ne "facility" "log_fields" _ _ (by decide)]
    simp
  · simp [hx]

theorem marshal_lookup_file (m : GraylogMessage) (j : JValue)
    (h : marshalMessage m = some j) :
    jLookup j "file" = if m.File = "" then none else some (.str m.File) := by
  obtain ⟨extraJ, lfJ, he, hl, rfl⟩ := marshalMessage_obtain m j h
  simp only [jLookup, List.append_assoc]
  rw [lookupField_optField_append_ne "file" "version" _ _ _ (by decide),
    lookupField_optField_append_ne "file" "host" _ _ _ (by decide),
    lookupField_optField_append_ne "file" "short_message" _ _ _ (by decide),
    lookupField_optField_append_ne "file" "full_message" _ _ _ (by decide),
    lookupField_optField_append_ne "file" "timestamp" _ _ _ (by decide),
    lookupField_optField_append_ne "file" "level" _ _ _ (by decide),
    lookupField_optField_append_ne "file" "facility" _ _ _ (by decide),
    lookupField_optField_append_self]
  by_cases hx : m.File = ""
  · simp only [hx]
    rw [lookupField_optField_append_ne "file" "line" _ _ _ (by decide),
      lookupField_optField_append_ne "file" "extra" _ _ _ (by decide),
      lookupField_optField_ne "file" "log_fields" _ _ (by decide)]
    simp
  · simp [hx]

theorem marshal_lookup_line (m : GraylogMessage) (j : JValue)
    (h : marshalMessage m = some j) :
    jLookup j "line" = if m.Line = 0 then none else some (.num m.Line) := by
  obtain ⟨extraJ, lfJ, he, hl, rfl⟩ := marshalMessage_obtain m j h
  simp only [jLookup, List.append_assoc]
  rw [lookupField_optField_append_ne "line" "version" _ _ _ (by decide),
    lookupField_optField_append_ne "line" "host" _ _ _ (by decide),
    lookupField_optField_append_ne "line" "short_message" _ _ _ (by decide),
    lookupField_optField_append_ne "line" "full_message" _ _ _ (by decide),
    lookupField_optField_append_ne "line" "timestamp" _ _ _ (by decide),
    lookupField_optField_append_ne "line" "level" _ _ _ (by decide),
    lookupField_optField_append_ne "line" "facility" _ _ _ (by decide),
    lookupField_optField_append_ne "line" "file" _ _ _ (by decide),
    lookupField_optField_append_self]
  by_cases hx : m.Line = 0
  · simp only [hx]
    rw [lookupField_optField_append_ne "line" "extra" _ _ _ (by decide),
      lookupField_optField_ne "line" "log_fields" _ _ (by decide)]
    simp
  · simp [hx]

theorem marshal_lookup_extra (m : GraylogMessage) (j : JValue)
    (extraJ : List (String × JValue)) (h : marshalMessage m = some j)
    (hE : marshalFields m.Extra = some extraJ) :
    jLookup j "extra" = if m.Extra.isEmpty then none else some (.obj extraJ) := by
  obtain ⟨extraJ', lfJ', he, hl, rfl⟩ := marshalMessage_obtain m j h
  rw [he] at hE
  injection hE with hE
  subst hE
  simp only [jLookup, List.append_assoc]
  rw [lookupField_optField_append_ne "extra" "version" _ _ _ (by decide),
    lookupField_optField_append_ne "extra" "host" _ _ _ (by decide),
    lookupField_optField_append_ne "extra" "short_message" _ _ _ (by decide),
    lookupField_optField_append_ne "extra" "full_message" _ _ _ (by decide),
    lookupField_optField_append_ne "extra" "timestamp" _ _ _ (by decide),
    lookupField_optField_append_ne "extra" "level" _ _ _ (by decide),
    lookupField_optField_append_ne "extra" "facility" _ _ _ (by decide),
    lookupField_optField_append_ne "extra" "file" _ _ _ (by decide),
    lookupField_optField_append_ne "extra" "line" _ _ _ (by decide),
    lookupField_optField_append_self]
  cases hx : m.Extra.isEmpty with
  | true =>
    simp only [hx]
    rw [lookupField_optField_ne "extra" "log_fields" _ _ (by decide)]
  | false => simp [hx]

theorem marshal_lookup_logFields (m : GraylogMessage) (j : JValue)
    (lfJ : List (String × JValue)) (h : marshalMessage m = some j)
    (hL : marshalFields m.LogFields = some lfJ) :
    jLookup j "log_fields" = if m.LogFields.isEmpty then none else some (.obj lfJ) := by
  obtain ⟨extraJ', lfJ', he, hl, rfl⟩ := marshalMessage_obtain m j h
  rw [hl] at hL
  injection hL with hL
  subst hL
  simp only [jLookup, List.append_assoc]
  rw [lookupField_optField_append_ne "log_fields" "version" _ _ _ (by decide),
    lookupField_optField_append_ne "log_fields" "host" _ _ _ (by decide),
    lookupField_optField_append_ne "log_fields" "short_message" _ _ _ (by decide),
    lookupField_optField_append_ne "log_fields" "full_message" _ _ _ (by decide),
    lookupField_optField_append_ne "log_fields" "timestamp" _ _ _ (by decide),
    lookupField_optField_append_ne "log_fields" "level" _ _ _ (by decide),
    lookupField_optField_append_ne "log_fields" "facility" _ _ _ (by decide),
    lookupField_optField_append_ne "log_fields" "file" _ _ _ (by decide),
    lookupField_optField_append_ne "log_fields" "line" _ _ _ (by decide),
    lookupField_optField_append_ne "log_fields" "extra" _ _ _ (by decide),
    lookupField_optField_self]

theorem marshal_lookup_notWire (m : GraylogMessage) (j : JValue) (key : String)
    (h : marshalMessage m = some j) (hk : key ∉ wireKeys) :
    jLookup j key = none := by
  obtain ⟨extraJ, lfJ, he, hl, rfl⟩ := marshalMessage_obtain m j h
  simp only [wireKeys, List.mem_cons, List.mem_singleton, not_or] at hk
  obtain ⟨h1, h2, h3, h4, h5, h6, h7, h8, h9, h10, h11, -⟩ := hk
  simp only [jLookup, List.append_assoc]
  rw [lookupField_optField_append_ne key "version" _ _ _ h1,
    lookupField_optField_append_ne key "host" _ _ _ h2,
    lookupField_optField_append_ne key "short_message" _ _ _ h3,
    lookupField_optField_append_ne key "full_message" _ _ _ h4,
    lookupField_optField_append_ne key "timestamp" _ _ _ h5,
    lookupField_optField_append_ne key "level" _ _ _ h6,
    lookupField_optField_append_ne key "facility" _ _ _ h7,
    lookupField_optField_append_ne key "file" _ _ _ h8,
    lookupField_optField_append_ne key "line" _ _ _ h9,
    lookupField_optField_append_ne key "extra" _ _ _ h10,
    lookupField_optField_ne key "log_fields" _ _ h11]

theorem marshalFields_isSome (fs : List (String × GoValue))
    (h : ∀ p ∈ fs, (marshalValue p.2).isSome = true) :
    (marshalFields fs).isSome = true := by
  induction fs with
  | nil => rfl
  | cons p rest ih =>
    obtain ⟨k, v⟩ := p
    have hv : (marshalValue v).isSome = true := h (k, v) (List.mem_cons_self _ _)
    have hrest := ih fun q hq => h q (List.mem_cons_of_mem _ hq)
    cases hmv : marshalValue v with
    | none => rw [hmv] at hv; simp at hv
    | some jv =>
      cases hmf : marshalFields rest with
      | none => rw [hmf] at hrest; simp at hrest
      | some jr => simp [marshalFields, hmv, hmf]

theorem marshalFields_lookup (fs : List (String × GoValue))
    (js : List (String × JValue)) (h : marshalFields fs = some js) (key : String) :
    lookupField js key = (lookupGo fs key).bind marshalValue := by
  induction fs generalizing js with
  | nil =>
    simp only [marshalFields, Option.some.injEq] at h
    subst h
    rfl
  | cons p rest ih =>
    obtain ⟨k, v⟩ := p
    simp only [marshalFields] at h
    cases hmv : marshalValue v with
    | none => rw [hmv] at h; simp at h
    | some jv =>
      cases hmf : marshalFields rest with
      | none => rw [hmv, hmf] at h; simp at h
      | some jr =>
        rw [hmv, hmf] at h
        injection h with h
        subst h
        by_cases hk : key = k
        · simp [lookupField, lookupGo, hk, hmv]
        · simp only [lookupField, lookupGo, if_neg hk]
          exact ih jr hmf

theorem marshalMessage_isSome (m : GraylogMessage)
    (h1 : (marshalFields m.Extra).isSome = true)
    (h2 : (marshalFields m.LogFields).isSome = true) :
    (marshalMessage m).isSome = true := by
  unfold marshalMessage
  cases he : marshalFields m.Extra with
  | none => rw [he] at h1; simp at h1
  | some extraJ =>
    cases hl : marshalFields m.LogFields with
    | none => rw [hl] at h2; simp at h2
    | some lfJ => simp

/-! ## Claim theorems: encoding -/

/-- C5: round trip — with a non-empty message and serializable field maps,
`Fire`'s envelope marshals successfully, and decoding the payload returns
the same message text under `short_message`, the same timestamp under
`timestamp`, and, whenever the per-event field map is non-empty, a
`log_fields` object whose entry at every key is the JSON encoding of the
original value (the field is omitted when the map is empty). -/
theorem C5_roundtrip (hook : GraylogHook) (entry : LogEntry) (now : Nat)
    (hmsg : entry.message ≠ "")
    (hextra : ∀ p ∈ hook.extra, (marshalValue p.2).isSome = true)
    (hdata : ∀ p ∈ entry.data, (marshalValue p.2).isSome = true) :
    ∃ j, marshalMessage (buildMessage hook entry now) = some j ∧
      jLookup j "short_message" = some (.str entry.message) ∧
      jLookup j "timestamp" = some (.num now) ∧
      (entry.data.isEmpty = true → jLookup j "log_fields" = none) ∧
      (entry.data.isEmpty = false → ∀ key,
        (jLookup j "log_fields").bind (fun lf => jLookup lf key)
          = (lookupGo entry.data key).bind marshalValue) := by
  have hE : (marshalFields (buildMessage hook entry now).Extra).isSome = true :=
    marshalFields_isSome hook.extra hextra
  have hL : (marshalFields (buildMessage hook entry now).LogFields).isSome = true :=
    marshalFields_isSome entry.data hdata
  obtain ⟨j, hm⟩ := Option.isSome_iff_exists.mp (marshalMessage_isSome _ hE hL)
  obtain ⟨lfJ, hlf⟩ := Option.isSome_iff_exists.mp hL
  refine ⟨j, hm, ?_, ?_, ?_, ?_⟩
  · rw [marshal_lookup_short _ _ hm]
    simp only [buildMessage]
    rw [if_neg hmsg]
  · rw [marshal_lookup_timestamp _ _ hm]
    rfl
  · intro hemp
    rw [marshal_lookup_logFields _ _ lfJ hm hlf]
    have hnil : (buildMessage hook entry now).LogFields.isEmpty = true := hemp
    rw [if_pos hnil]
  · intro hne key
    rw [marshal_lookup_logFields _ _ lfJ hm hlf]
    simp only [buildMessage, hne, Bool.false_eq_true, if_false, Option.some_bind,
      jLookup]
    exact marshalFields_lookup entry.data lfJ hlf key

/-- C5 witness at a concrete record: message "hello", timestamp 7, field map
`{answer ↦ 42}`. -/
theorem C5_roundtrip_witness :
    ("hello" ≠ "" ∧
     (∀ p ∈ ([] : List (String × GoValue)), (marshalValue p.2).isSome = true) ∧
     (∀ p ∈ [("answer", GoValue.num 42)], (marshalValue p.2).isSome = true)) ∧
    (∃ j, marshalMessage (buildMessage
        { graylogAddress := "http://collector", hostname := "myhost",
          facility := "myfac", extra := [], retries := 1, Level := 5 }
        { message := "hello", level := 4, data := [("answer", GoValue.num 42)] }
        7) = some j ∧
      jLookup j "short_message" = some (.str "hello") ∧
      jLookup j "timestamp" = some (.num 7) ∧
      ([("answer", GoValue.num 42)].isEmpty = true → jLookup j "log_fields" = none) ∧
      ([("answer", GoValue.num 42)].isEmpty = false → ∀ key,
        (jLookup j "log_fields").bind (fun lf => jLookup lf key)
          = (lookupGo [("answer", GoValue.num 42)] key).bind marshalValue)) :=
  ⟨⟨by decide, by decide, by decide⟩,
   C5_roundtrip _ _ 7 (by decide) (by decide) (by decide)⟩

/-- C7: when the envelope fails to serialize, `Fire` returns the error
synchronously, nothing is put on the channel and the pending-work counter
is not incremented — the state is unchanged. -/
theorem C7_fire_marshal_error (hook : GraylogHook) (entry : LogEntry) (now : Nat)
    (s : HookState) (h : marshalMessage (buildMessage hook entry now) = none) :
    Fire hook entry now s = (some "json: unsupported type", s) ∧
    (Fire hook entry now s).2.queue = s.queue ∧
    (Fire hook entry now s).2.pending = s.pending := by
  have hf : Fire hook entry now s = (some "json: unsupported type", s) := by
    unfold Fire
    rw [h]
  exact ⟨hf, by rw [hf], by rw [hf]⟩

/-- C7 witness: a field map holding a function value makes marshalling fail;
`Fire` errors out and leaves the initial state untouched. -/
theorem C7_fire_marshal_error_witness :
    marshalMessage (buildMessage hookW entryBad 3) = none ∧
    (Fire hookW entryBad 3 initialState = (some "json: unsupported type", initialState) ∧
     (Fire hookW entryBad 3 initialState).2.queue = initialState.queue ∧
     (Fire hookW entryBad 3 initialState).2.pending = initialState.pending) :=
  ⟨rfl, C7_fire_marshal_error hookW entryBad 3 initialState rfl⟩

/-- C8 counterexample: the claim says every wire field, `timestamp`
included, is omitted when its value is empty or zero; but marshalling the
all-zero message still emits `timestamp` (Go's `omitempty` never treats a
struct-typed value such as `time.Time` as empty), so a payload exists whose
zero-valued `timestamp` field is present. -/
theorem C8_counterexample :
    marshalMessage msgZero = some (.obj [("timestamp", .num 0)]) ∧
    msgZero.TimeUnix = 0 ∧
    jLookup (.obj [("timestamp", .num 0)]) "timestamp" = some (.num 0) :=
  ⟨rfl, rfl, rfl⟩

/-- C8 amended: the wire payload is a JSON object whose fields are drawn
from the eleven declared names; every field except `timestamp` is omitted
exactly when its value is empty/zero; `timestamp` is always present
(`omitempty` is ineffective on the struct-typed `time.Time`). -/
theorem C8_amended_omitempty (m : GraylogMessage) (j : JValue)
    (extraJ lfJ : List (String × JValue))
    (h : marshalMessage m = some j)
    (hE : marshalFields m.Extra = some extraJ)
    (hL : marshalFields m.LogFields = some lfJ) :
    (∀ key, key ∉ wireKeys → jLookup j key = none) ∧
    jLookup j "version" = (if m.Version = "" then none else some (.str m.Version)) ∧
    jLookup j "host" = (if m.Host = "" then none else some (.str m.Host)) ∧
    jLookup j "short_message" = (if m.Short = "" then none else some (.str m.Short)) ∧
    jLookup j "full_message" = (if m.Full = "" then none else some (.str m.Full)) ∧
    jLookup j "timestamp" = some (.num m.TimeUnix) ∧
    jLookup j "level" = (if m.Level = 0 then none else some (.num m.Level)) ∧
    jLookup j "facility" = (if m.Facility = "" then none else some (.str m.Facility)) ∧
    jLookup j "file" = (if m.File = "" then none else some (.str m.File)) ∧
    jLookup j "line" = (if m.Line = 0 then none else some (.num m.Line)) ∧
    jLookup j "extra" = (if m.Extra.isEmpty then none else some (.obj extraJ)) ∧
    jLookup j "log_fields" = (if m.LogFields.isEmpty then none else some (.obj lfJ)) :=
  ⟨fun key hk => marshal_lookup_notWire m j key h hk,
   marshal_lookup_version m j h, marshal_lookup_host m j h,
   marshal_lookup_short m j h, marshal_lookup_full m j h,
   marshal_lookup_timestamp m j h, marshal_lookup_level m j h,
   marshal_lookup_facility m j h, marshal_lookup_file m j h,
   marshal_lookup_line m j h, marshal_lookup_extra m j extraJ h hE,
   marshal_lookup_logFields m j lfJ h hL⟩

/-- C8 amended witness at a concrete message with a mix of empty and
non-empty fields. -/
theorem C8_amended_omitempty_witness :
    (marshalMessage msgMix = some jMix ∧
     marshalFields msgMix.Extra = some [] ∧
     marshalFields msgMix.LogFields = some [("a", .str "b")]) ∧
    ((∀ key, key ∉ wireKeys → jLookup jMix key = none) ∧
     jLookup jMix "version" = (if msgMix.Version = "" then none else some (.str msgMix.Version)) ∧
     jLookup jMix "host" = (if msgMix.Host = "" then none else some (.str msgMix.Host)) ∧
     jLookup jMix "short_message" = (if msgMix.Short = "" then none else some (.str msgMix.Short)) ∧
     jLookup jMix "full_message" = (if msgMix.Full = "" then none else some (.str msgMix.Full)) ∧
     jLookup jMix "timestamp" = some (.num msgMix.TimeUnix) ∧
     jLookup jMix "level" = (if msgMix.Level = 0 then none else some (.num msgMix.Level)) ∧
     jLookup jMix "facility" = (if msgMix.Facility = "" then none else some (.str msgMix.Facility)) ∧
     jLookup jMix "file" = (if msgMix.File = "" then none else some (.str msgMix.File)) ∧
     jLookup jMix "line" = (if msgMix.Line = 0 then none else some (.num msgMix.Line)) ∧
     jLookup jMix "extra" = (if msgMix.Extra.isEmpty then none else some (.obj [])) ∧
     jLookup jMix "log_fields" = (if msgMix.LogFields.isEmpty then none
        else some (.obj [("a", .str "b")]))) :=
  ⟨⟨rfl, rfl, rfl⟩, C8_amended_omitempty msgMix jMix [] [("a", .str "b")] rfl rfl rfl⟩

/-- C9: `Fire` leaves the envelope's full-message field at its zero value
(the assignment is commented out in the source), so the serialized payload
never carries a `full_message` field. -/
theorem C9_full_message_never_emitted (hook : GraylogHook) (entry : LogEntry)
    (now : Nat) :
    (buildMessage hook entry now).Full = "" ∧
    (marshalMessage (buildMessage hook entry now)).bind
      (fun j => jLookup j "full_message") = none := by
  refine ⟨rfl, ?_⟩
  cases hm : marshalMessage (buildMessage hook entry now) with
  | none => rfl
  | some j =>
    show jLookup j "full_message" = none
    rw [marshal_lookup_full _ _ hm]
    simp [buildMessage]

/-! ## Claim theorems: construction and default level -/

/-- Any hook whose threshold is `DebugLevel` filters exactly Trace out. -/
theorem levels_debug (hook : GraylogHook) (h : hook.Level = DebugLevel) :
    Levels hook = [0, 1, 2, 3, 4, 5] := by
  unfold Levels AllLevels
  rw [h]
  rfl

/-- C10 counterexample: a freshly constructed hook has threshold
`DebugLevel` (5), and `Levels` then excludes `TraceLevel` (6), which is a
logrus severity level — so `Levels` does not return every logrus level. -/
theorem C10_counterexample :
    NewGraylogHook "http://collector" 3 [] (Except.ok "myhost") "/usr/bin/app"
      = Except.ok hookFull ∧
    Levels hookFull = [0, 1, 2, 3, 4, 5] ∧
    TraceLevel ∈ AllLevels ∧
    TraceLevel ∉ Levels hookFull :=
  ⟨rfl, by decide, by decide, by decide⟩

/-- C10 amended: every hook built by `NewGraylogHook` has its threshold set
to `DebugLevel`, so `Levels` returns every logrus severity except Trace. -/
theorem C10_fresh_hook_levels (graylogAddress : String) (retries : Nat)
    (extra : List (String × GoValue)) (hres : Except String String) (arg0 : String)
    (hook : GraylogHook)
    (h : NewGraylogHook graylogAddress retries extra hres arg0 = .ok hook) :
    hook.Level = DebugLevel ∧ Levels hook = [0, 1, 2, 3, 4, 5] ∧
    TraceLevel ∉ Levels hook := by
  cases hres with
  | error e => simp [NewGraylogHook] at h
  | ok host =>
    simp only [NewGraylogHook] at h
    injection h with h
    subst h
    have hl := levels_debug _ (rfl :
      (GraylogHook.mk graylogAddress host (pathBase arg0) extra retries
        DebugLevel).Level = DebugLevel)
    refine ⟨rfl, hl, ?_⟩
    rw [hl]
    decide

/-- C10 amended witness: a concrete construction whose `Levels` is exactly
Panic..Debug, Trace excluded. -/
theorem C10_fresh_hook_levels_witness :
    NewGraylogHook "u" 1 [] (Except.ok "h") "app" = Except.ok hookFresh ∧
    (hookFresh.Level = DebugLevel ∧
     Levels hookFresh = [0, 1, 2, 3, 4, 5] ∧
     TraceLevel ∉ Levels hookFresh) :=
  ⟨rfl, C10_fresh_hook_levels "u" 1 [] (.ok "h") "app" hookFresh rfl⟩

/-! ## Queue and pending-counter lemmas, Flush -/

theorem Fire_ok (hook : GraylogHook) (entry : LogEntry) (now : Nat) (s : HookState)
    (j : JValue) (h : marshalMessage (buildMessage hook entry now) = some j) :
    Fire hook entry now s
      = (none, { queue := s.queue ++ [j], pending := s.pending + 1 }) := by
  unfold Fire
  rw [h]

theorem runFires_counts (hook : GraylogHook) (now : Nat) :
    ∀ (entries : List LogEntry) (s : HookState),
      (∀ p ∈ hook.extra, (marshalValue p.2).isSome = true) →
      (∀ e ∈ entries, ∀ p ∈ e.data, (marshalValue p.2).isSome = true) →
      (runFires hook entries now s).pending = s.pending + entries.length ∧
      (runFires hook entries now s).queue.length = s.queue.length + entries.length := by
  intro entries
  induction entries with
  | nil => intro s _ _; simp [runFires]
  | cons e rest ih =>
    intro s hextra hdata
    have hm : (marshalMessage (buildMessage hook e now)).isSome = true :=
      marshalMessage_isSome _ (marshalFields_isSome _ hextra)
        (marshalFields_isSome _ (hdata e (List.mem_cons_self _ _)))
    obtain ⟨j, hj⟩ := Option.isSome_iff_exists.mp hm
    have hstep : runFires hook (e :: rest) now s
        = runFires hook rest now { queue := s.queue ++ [j], pending := s.pending + 1 } := by
      simp only [runFires, List.foldl_cons]
      rw [Fire_ok hook e now s j hj]
    rw [hstep]
    have hrest := ih { queue := s.queue ++ [j], pending := s.pending + 1 }
      hextra (fun e' he' => hdata e' (List.mem_cons_of_mem _ he'))
    simp only [List.length_append, List.length_cons, List.length_nil] at hrest ⊢
    omega

theorem workerStep_counts (hook : GraylogHook) (oracle : Nat → AttemptResult)
    (s : HookState) (h : s.queue ≠ []) :
    (workerStep hook oracle s).pending = s.pending - 1 ∧
    (workerStep hook oracle s).queue.length = s.queue.length - 1 := by
  cases hq : s.queue with
  | nil => exact absurd hq h
  | cons p rest => simp [workerStep, hq, doneCount_sendEntry]

theorem runWorker_counts (hook : GraylogHook) (oracles : Nat → Nat → AttemptResult) :
    ∀ (M : Nat) (s : HookState), s.pending = s.queue.length → M ≤ s.pending →
      (runWorker hook oracles M s).pending = s.pending - M ∧
      (runWorker hook oracles M s).queue.length = s.queue.length - M := by
  intro M
  induction M with
  | zero => intro s _ _; simp [runWorker]
  | succ k ih =>
    intro s hinv hM
    have hne : s.queue ≠ [] := by
      intro hq
      rw [hq] at hinv
      simp at hinv
      omega
    obtain ⟨hp, hq⟩ := workerStep_counts hook (oracles k) s hne
    have hrec := ih (workerStep hook (oracles k) s) (by omega) (by omega)
    simp only [runWorker]
    constructor
    · omega
    · omega

/-- C2: starting from an idle hook, `N` successful `Fire` calls leave the
pending-work counter at `N` with the `N` payloads admitted to the queue
(each accepted enqueue increments the counter together with its admission);
after `M ≤ N` completed per-payload delivery-attempt sequences — whatever
each sequence's attempt outcomes — the counter is `N - M`, and `Flush`
(`wg.Wait`) returns exactly when `M = N`, i.e. when all `N` sequences have
completed. -/
theorem C2_flush_after_drain (hook : GraylogHook) (entries : List LogEntry)
    (now M : Nat) (oracles : Nat → Nat → AttemptResult)
    (hextra : ∀ p ∈ hook.extra, (marshalValue p.2).isSome = true)
    (hdata : ∀ e ∈ entries, ∀ p ∈ e.data, (marshalValue p.2).isSome = true)
    (hM : M ≤ entries.length) :
    (runFires hook entries now initialState).pending = entries.length ∧
    (runFires hook entries now initialState).queue.length = entries.length ∧
    (runWorker hook oracles M (runFires hook entries now initialState)).pending
      = entries.length - M ∧
    (flushReturns
        (runWorker hook oracles M (runFires hook entries now initialState))
      ↔ M = entries.length) := by
  have hP : (runFires hook entries now initialState).pending = entries.length := by
    have := (runFires_counts hook now entries initialState hextra hdata).1
    simpa [initialState] using this
  have hQ : (runFires hook entries now initialState).queue.length = entries.length := by
    have := (runFires_counts hook now entries initialState hextra hdata).2
    simpa [initialState] using this
  have hw := runWorker_counts hook oracles M (runFires hook entries now initialState)
    (by rw [hP, hQ]) (by rw [hP]; exact hM)
  refine ⟨hP, hQ, ?_, ?_⟩
  · rw [hw.1, hP]
  · show (runWorker hook oracles M (runFires hook entries now initialState)).pending
        = 0 ↔ M = entries.length
    rw [hw.1, hP]
    omega

/-- C2 witness: two enqueues on an idle hook, then two worker iterations
against an always-failing transport — counter reaches 0 exactly then, and
Flush unblocks. -/
theorem C2_flush_after_drain_witness :
    ((∀ p ∈ hookW.extra, (marshalValue p.2).isSome = true) ∧
     (∀ e ∈ [entryA, entryB], ∀ p ∈ e.data, (marshalValue p.2).isSome = true) ∧
     2 ≤ [entryA, entryB].length) ∧
    ((runFires hookW [entryA, entryB] 0 initialState).pending
        = [entryA, entryB].length ∧
     (runFires hookW [entryA, entryB] 0 initialState).queue.length
        = [entryA, entryB].length ∧
     (runWorker hookW (fun _ _ => .transportError) 2
        (runFires hookW [entryA, entryB] 0 initialState)).pending
        = [entryA, entryB].length - 2 ∧
     (flushReturns (runWorker hookW (fun _ _ => .transportError) 2
        (runFires hookW [entryA, entryB] 0 initialState))
      ↔ 2 = [entryA, entryB].length)) :=
  ⟨⟨by decide, by decide, by decide⟩,
   C2_flush_after_drain hookW [entryA, entryB] 0 2 (fun _ _ => .transportError)
     (by decide) (by decide) (by decide)⟩

end GrayHook
